import Mathlib

/-!
Verification of the dicom-app frontend core (SolidJS/TypeScript sources under
`src/`): the tag-viewer filter/sort/pin engine (`TagViewerPage.tsx`), the
stats post-processing (`StatsModal.tsx`), the pipeline orchestration and the
tag-identifier parser (`pages/App.tsx`, `handleProcess`), the pinned-tag
start-up loading, and the windowed renderer configuration.

JavaScript values are embedded as follows: numbers that are in fact integers
(tag groups/elements, counts) become `Nat` or `Int`; JS strings become
`String` (ASCII-faithful; Unicode case-mapping edge cases of `toLowerCase`
are abstracted by `Char.toLower`); JS arrays become `List`; `null`/`undefined`
become `Option`; thrown exceptions become `Except`; the stable
`Array.prototype.sort` becomes `List.mergeSort` with the comparator
`cmp a b ≤ 0` (JS keeps `a` before `b` exactly when the comparator is `≤ 0`,
and a consistent comparator makes the engine sort equivalent to a stable
merge sort). Division results that JS renders as `NaN`/`Infinity` are
embedded as `Option.none`.
-/

/-! ## Tag data model (TagViewerPage.tsx, interfaces DicomTag / PinnedTag) -/

/-- Embeds `interface DicomTag { group: number; element: number; name: string;
vr: string; value: string }` from TagViewerPage.tsx. -/
structure DicomTag where
  group : Nat
  element : Nat
  name : String
  vr : String
  value : String
  deriving DecidableEq, Repr

/-- Embeds `interface PinnedTag { group: number; element: number }`. -/
structure PinnedTag where
  group : Nat
  element : Nat
  deriving DecidableEq, Repr

/-- Membership test of a `(group, element)` pair in the pin list. The source
builds a `Set` of string keys `` `${p.group}-${p.element}` `` (memo
`pinnedTagSet`) and tests `has`; since the key function is injective on
pairs of naturals (the decimal digits contain no dash), that set membership
is exactly this existential over the pin list. -/
def isPinnedPair (pins : List PinnedTag) (g e : Nat) : Bool :=
  pins.any (fun p => p.group == g && p.element == e)

/-- Embeds `isPinned` of TagViewerPage.tsx. -/
def isPinned (pins : List PinnedTag) (t : DicomTag) : Bool :=
  isPinnedPair pins t.group t.element

/-- Embeds `togglePin` of TagViewerPage.tsx: if the tag's identifier is
pinned, remove every matching entry with `filter`; otherwise append
`{ group, element }` (the source spreads `[...prev, {...}]`). -/
def togglePin (pins : List PinnedTag) (t : DicomTag) : List PinnedTag :=
  if isPinned pins t then
    pins.filter (fun p => !(p.group == t.group && p.element == t.element))
  else
    pins ++ [⟨t.group, t.element⟩]

/-! ## Pinned-tag start-up loading (TagViewerPage.tsx, `loadPinnedTags`) -/

/-- The five identity tags installed when nothing is stored under the
`"pinnedTags"` key (source lines 50–56). -/
def defaultPinnedTags : List PinnedTag :=
  [⟨0x0010, 0x0010⟩, ⟨0x0010, 0x0020⟩, ⟨0x0010, 0x0030⟩,
   ⟨0x0008, 0x0080⟩, ⟨0x0008, 0x0090⟩]

/-- Embeds `loadPinnedTags` of TagViewerPage.tsx. `stored` is the value of
`localStorage.getItem("pinnedTags")` (`none` for a missing key), and
`jsonParse` abstracts the external builtin `JSON.parse` (`none` models a
thrown `SyntaxError`, caught by the source's `try/catch`). The source gates
on JS truthiness, `if (stored)`: a `string | null` is truthy exactly when it
is non-null and nonempty, so a stored empty string takes the `else` branch
and installs the five defaults, like a missing key. The signal `pinnedTags`
is created with initial value `[]`; a caught parse error leaves it
untouched. -/
def loadPinnedTags (stored : Option String)
    (jsonParse : String → Option (List PinnedTag)) : List PinnedTag :=
  match stored with
  | some s =>
    if s ≠ "" then
      match jsonParse s with
      | some v => v
      | none => []
    else defaultPinnedTags
  | none => defaultPinnedTags

theorem togglePin_mem (pins : List PinnedTag) (t : DicomTag) (p : PinnedTag) :
    p ∈ togglePin (togglePin pins t) t ↔ p ∈ pins := by
  classical
  unfold togglePin isPinned isPinnedPair
  by_cases h : pins.any (fun p => p.group == t.group && p.element == t.element) = true
  · simp only [h, if_pos]
    have hfilter :
        (pins.filter (fun p => !(p.group == t.group && p.element == t.element))).any
          (fun p => p.group == t.group && p.element == t.element) = false := by
      rw [List.any_eq_false]
      intro q hq
      have h1 := List.of_mem_filter hq
      rw [Bool.not_eq_true'] at h1
      simp [h1]
    simp only [hfilter, Bool.false_eq_true, if_neg, if_false]
    constructor
    · intro hp
      rcases List.mem_append.mp hp with hp | hp
      · exact List.mem_of_mem_filter hp
      · simp only [List.mem_singleton] at hp
        subst hp
        rcases List.any_eq_true.mp h with ⟨q, hq, hqeq⟩
        have : q = (⟨t.group, t.element⟩ : PinnedTag) := by
          cases q
          simp only [Bool.and_eq_true, beq_iff_eq] at hqeq
          simp [hqeq.1, hqeq.2]
        exact this ▸ hq
    · intro hp
      by_cases hpe : p.group = t.group ∧ p.element = t.element
      · apply List.mem_append.mpr (Or.inr _)
        cases p
        simp only at hpe
        simp [hpe.1, hpe.2]
      · apply List.mem_append.mpr (Or.inl _)
        apply List.mem_filter.mpr ⟨hp, ?_⟩
        simp only [Bool.not_eq_true']
        rcases not_and_or.mp hpe with hne | hne <;> simp [hne]
  · simp only [h, if_neg, if_false, Bool.false_eq_true]
    have happ : ((pins ++ [(⟨t.group, t.element⟩ : PinnedTag)]).any
        (fun p => p.group == t.group && p.element == t.element)) = true := by
      simp
    simp only [happ, if_pos]
    constructor
    · intro hp
      have hmem := List.mem_of_mem_filter hp
      have hkeep := List.of_mem_filter hp
      simp only [Bool.not_eq_true', Bool.and_eq_false_iff] at hkeep
      rcases List.mem_append.mp hmem with hmem | hmem
      · exact hmem
      · simp only [List.mem_singleton] at hmem
        subst hmem
        simp at hkeep
    · intro hp
      apply List.mem_filter.mpr ⟨List.mem_append.mpr (Or.inl hp), ?_⟩
      simp only [Bool.not_eq_true', Bool.and_eq_false_iff]
      by_contra hc
      push_neg at hc
      rcases hc with ⟨h1, h2⟩
      have hpin : pins.any (fun p => p.group == t.group && p.element == t.element) = true := by
        apply List.any_eq_true.mpr
        refine ⟨p, hp, ?_⟩
        simp only [Bool.and_eq_true]
        constructor
        · exact Bool.not_eq_false _ ▸ (by simpa using h1)
        · simpa using h2
      exact h hpin

theorem togglePin_nodup (pins : List PinnedTag) (t : DicomTag)
    (hnd : pins.Nodup) : (togglePin pins t).Nodup := by
  unfold togglePin
  by_cases h : isPinned pins t = true
  · simp only [h, if_pos]
    exact hnd.filter _
  · simp only [h, if_neg, Bool.false_eq_true, if_false]
    apply List.Nodup.append hnd (List.nodup_singleton _)
    intro q hq hq'
    simp only [List.mem_singleton] at hq'
    subst hq'
    apply h
    unfold isPinned isPinnedPair
    apply List.any_eq_true.mpr
    exact ⟨_, hq, by simp⟩

/-- C6: double toggle restores membership, and toggling preserves
duplicate-freeness along any sequence of toggles. -/
theorem claim_C6_togglePin_involutive_nodup
    (pins : List PinnedTag) (hnd : pins.Nodup) :
    (∀ t p, p ∈ togglePin (togglePin pins t) t ↔ p ∈ pins) ∧
    (∀ ops : List DicomTag, (ops.foldl togglePin pins).Nodup) := by
  constructor
  · intro t p
    exact togglePin_mem pins t p
  · intro ops
    induction ops generalizing pins with
    | nil => exact hnd
    | cons t rest ih =>
      exact ih _ (togglePin_nodup pins t hnd)

theorem claim_C6_witness :
    (⟨1, 2⟩ : PinnedTag) ∈
      togglePin (togglePin [⟨1, 2⟩] ⟨1, 2, "PatientName", "PN", "X"⟩)
        ⟨1, 2, "PatientName", "PN", "X"⟩ ∧
    (([⟨1, 2, "PatientName", "PN", "X"⟩,
       ⟨1, 2, "PatientName", "PN", "X"⟩] : List DicomTag).foldl togglePin
      [⟨1, 2⟩]).Nodup := by
  refine ⟨?_, ?_⟩
  · exact (claim_C6_togglePin_involutive_nodup [⟨1, 2⟩] (by decide)).1
      ⟨1, 2, "PatientName", "PN", "X"⟩ ⟨1, 2⟩ |>.mpr (by decide)
  · exact (claim_C6_togglePin_involutive_nodup [⟨1, 2⟩] (by decide)).2 _

/-- C10 counterexample: the empty string is a stored value that exists and
is not parseable JSON (`JSON.parse("")` throws), yet `""` is falsy, so
`if (stored)` takes the `else` branch and installs the five defaults — the
pin set does not remain empty there, refuting the claim's unparseable-value
clause at a concrete in-scope input. -/
theorem claim_C10_counterexample :
    loadPinnedTags (some "") (fun _ => none) = defaultPinnedTags ∧
    defaultPinnedTags ≠ [] := by
  constructor
  · rfl
  · decide

/-- C10 (amended): a missing `"pinnedTags"` storage key installs exactly the
five identity tags; a present nonempty value that is not parseable leaves
the pin set empty (the default is not applied), and start-up completes
without failure; a stored empty string is falsy in JS and is treated like a
missing key, installing the five defaults. -/
theorem claim_C10_loadPinnedTags
    (jsonParse : String → Option (List PinnedTag)) (s : String)
    (hne : s ≠ "") (hbad : jsonParse s = none) :
    loadPinnedTags none jsonParse =
      [⟨0x0010, 0x0010⟩, ⟨0x0010, 0x0020⟩, ⟨0x0010, 0x0030⟩,
       ⟨0x0008, 0x0080⟩, ⟨0x0008, 0x0090⟩] ∧
    loadPinnedTags (some s) jsonParse = [] ∧
    loadPinnedTags (some "") jsonParse =
      [⟨0x0010, 0x0010⟩, ⟨0x0010, 0x0020⟩, ⟨0x0010, 0x0030⟩,
       ⟨0x0008, 0x0080⟩, ⟨0x0008, 0x0090⟩] := by
  refine ⟨rfl, ?_, rfl⟩
  simp [loadPinnedTags, hne, hbad]

theorem claim_C10_witness :
    loadPinnedTags none (fun _ => none) =
      [⟨0x0010, 0x0010⟩, ⟨0x0010, 0x0020⟩, ⟨0x0010, 0x0030⟩,
       ⟨0x0008, 0x0080⟩, ⟨0x0008, 0x0090⟩] ∧
    loadPinnedTags (some "not json") (fun _ => none) = [] ∧
    loadPinnedTags (some "") (fun _ => none) =
      [⟨0x0010, 0x0010⟩, ⟨0x0010, 0x0020⟩, ⟨0x0010, 0x0030⟩,
       ⟨0x0008, 0x0080⟩, ⟨0x0008, 0x0090⟩] :=
  claim_C10_loadPinnedTags (fun _ => none) "not json" (by decide) rfl

/-! ## Filter/sort engine (TagViewerPage.tsx, memo `filteredTags`) -/

/-- Embeds `String.prototype.toLowerCase` (per-character ASCII case
mapping). -/
def jsToLower (s : String) : String := String.mk (s.data.map Char.toLower)

/-- Substring containment on character lists: `listIncludes pat hay` holds
when `pat` occurs contiguously in `hay` (the semantics of
`String.prototype.includes`). -/
def listIncludes (pat : List Char) : List Char → Bool
  | [] => pat.isEmpty
  | c :: rest => pat.isPrefixOf (c :: rest) || listIncludes pat rest

/-- Embeds `s.includes(pat)`. -/
def strIncludes (s pat : String) : Bool := listIncludes pat.toList s.toList

/-- Embeds `n.toString(16)`: lowercase hexadecimal digits. -/
def natHex (n : Nat) : String := String.mk (Nat.toDigits 16 n)

/-- The filter predicate of `filteredTags` (source lines 91–96): a row passes
when the lowercased filter text occurs in the lowercased name, the lowercased
value, the hexadecimal text of the group, or the hexadecimal text of the
element. -/
def tagMatches (filter : String) (t : DicomTag) : Bool :=
  strIncludes (jsToLower t.name) filter ||
  strIncludes (jsToLower t.value) filter ||
  strIncludes (natHex t.group) filter ||
  strIncludes (natHex t.element) filter

/-- The sort comparator of `filteredTags` (source lines 113–121): pinned
first, then ascending group, then ascending element. -/
def cmpTag (pins : List PinnedTag) (a b : DicomTag) : Int :=
  let aP := isPinned pins a
  let bP := isPinned pins b
  if aP && !bP then -1
  else if !aP && bP then 1
  else if a.group ≠ b.group then (a.group : Int) - (b.group : Int)
  else (a.element : Int) - (b.element : Int)

/-- The "keep `a` before `b`" relation induced by the comparator: the JS
engine sort keeps `a` before `b` exactly when `cmpTag a b ≤ 0`, and a stable
engine sort with a consistent comparator coincides with `mergeSort` on this
relation. -/
def tagLe (pins : List PinnedTag) (a b : DicomTag) : Bool :=
  decide (cmpTag pins a b ≤ 0)

/-- Embeds `currentTags.sort(...)` (value of the sorted array). -/
def sortTags (pins : List PinnedTag) (l : List DicomTag) : List DicomTag :=
  l.mergeSort (tagLe pins)

/-- Value-level embedding of the memo `filteredTags`: lowercase the filter,
filter when nonempty, then sort. (The in-place/copy behaviour of the source
is modelled separately by `filteredTagsProg`.) -/
def deriveView (tags : List DicomTag) (pins : List PinnedTag)
    (filterText : String) : List DicomTag :=
  let filter := jsToLower filterText
  let current := if filter ≠ "" then tags.filter (tagMatches filter) else tags
  sortTags pins current

theorem listIncludes_nil (hay : List Char) : listIncludes [] hay = true := by
  cases hay <;> simp [listIncludes, List.isPrefixOf]

theorem tagMatches_empty (t : DicomTag) : tagMatches (jsToLower "") t = true := by
  have h : jsToLower "" = "" := rfl
  rw [h]
  unfold tagMatches strIncludes
  have h2 : ("" : String).toList = [] := rfl
  rw [h2]
  simp [listIncludes_nil]

theorem filter_tagMatches_empty (tags : List DicomTag) :
    tags.filter (tagMatches "") = tags :=
  List.filter_eq_self.mpr (fun t _ => tagMatches_empty t)

theorem cmpTag_nonpos_iff (pins : List PinnedTag) (a b : DicomTag) :
    cmpTag pins a b ≤ 0 ↔
      (isPinned pins b = true → isPinned pins a = true) ∧
      (isPinned pins a = isPinned pins b →
        a.group < b.group ∨ (a.group = b.group ∧ a.element ≤ b.element)) := by
  unfold cmpTag
  cases haP : isPinned pins a <;> cases hbP : isPinned pins b <;>
    simp [haP, hbP] <;>
    (by_cases hg : a.group = b.group <;> simp [hg] <;> omega)

theorem tagLe_total (pins : List PinnedTag) (a b : DicomTag) :
    tagLe pins a b || tagLe pins b a := by
  simp only [tagLe, Bool.or_eq_true, decide_eq_true_eq]
  rw [cmpTag_nonpos_iff, cmpTag_nonpos_iff]
  cases haP : isPinned pins a <;> cases hbP : isPinned pins b <;>
    simp [haP, hbP] <;> omega

theorem tagLe_trans (pins : List PinnedTag) (a b c : DicomTag) :
    tagLe pins a b → tagLe pins b c → tagLe pins a c := by
  simp only [tagLe, decide_eq_true_eq]
  rw [cmpTag_nonpos_iff, cmpTag_nonpos_iff, cmpTag_nonpos_iff]
  cases haP : isPinned pins a <;> cases hbP : isPinned pins b <;>
    cases hcP : isPinned pins c <;> simp [haP, hbP, hcP] <;> omega

/-- C3: the derived view is, as a multiset, exactly the rows passing the
case-insensitive substring predicate (no duplication, no loss), and the
empty filter passes every row. -/
theorem claim_C3_filter_exact (tags : List DicomTag) (pins : List PinnedTag)
    (q : String) :
    (deriveView tags pins q).Perm
        (tags.filter (tagMatches (jsToLower q))) ∧
    (∀ t : DicomTag, tagMatches (jsToLower "") t = true) := by
  refine ⟨?_, tagMatches_empty⟩
  unfold deriveView sortTags
  by_cases hq : jsToLower q = ""
  · simp only [hq, ne_eq, not_true_eq_false, if_neg, if_false]
    rw [filter_tagMatches_empty]
    exact List.mergeSort_perm tags _
  · simp only [ne_eq, hq, not_false_eq_true, if_pos, if_true]
    exact List.mergeSort_perm _ _

/-- C4: in every derived view, pinned rows precede unpinned rows, within each
pinnedness partition the `(group, element)` keys are non-decreasing, and rows
with identical sort keys keep their relative input order (stability). -/
theorem claim_C4_sort_order (tags : List DicomTag) (pins : List PinnedTag)
    (q : String) :
    ((deriveView tags pins q).Pairwise (fun a b =>
        (isPinned pins b = true → isPinned pins a = true) ∧
        (isPinned pins a = isPinned pins b →
          a.group < b.group ∨ (a.group = b.group ∧ a.element ≤ b.element)))) ∧
    (∀ a b : DicomTag, isPinned pins a = isPinned pins b →
      a.group = b.group → a.element = b.element →
      tagMatches (jsToLower q) a = true → tagMatches (jsToLower q) b = true →
      [a, b].Sublist tags → [a, b].Sublist (deriveView tags pins q)) := by
  constructor
  · have hs := List.sorted_mergeSort
      (tagLe_trans pins) (tagLe_total pins)
      (if jsToLower q ≠ "" then tags.filter (tagMatches (jsToLower q)) else tags)
    unfold deriveView sortTags
    exact hs.imp (fun hle => by
      have := (cmpTag_nonpos_iff pins _ _).mp (by simpa [tagLe] using hle)
      exact this)
  · intro a b hp hg he hma hmb hsub
    have hab : tagLe pins a b = true := by
      simp only [tagLe, decide_eq_true_eq]
      rw [cmpTag_nonpos_iff]
      refine ⟨fun _ => by rw [hp]; assumption, fun _ => Or.inr ⟨hg, le_of_eq he⟩⟩
    unfold deriveView sortTags
    by_cases hq : jsToLower q = ""
    · simp only [hq, ne_eq, not_true_eq_false, if_neg, if_false]
      exact List.pair_sublist_mergeSort (tagLe_trans pins) (tagLe_total pins)
        hab hsub
    · simp only [ne_eq, hq, not_false_eq_true, if_pos, if_true]
      apply List.pair_sublist_mergeSort (tagLe_trans pins) (tagLe_total pins) hab
      have hfilter : ([a, b].filter (tagMatches (jsToLower q))) = [a, b] := by
        simp [List.filter, hma, hmb]
      have h2 := hsub.filter (tagMatches (jsToLower q))
      rw [hfilter] at h2
      exact h2

theorem claim_C4_witness :
    [⟨8, 0, "a", "CS", "x"⟩, ⟨8, 0, "b", "CS", "y"⟩].Sublist
      (deriveView [⟨8, 0, "a", "CS", "x"⟩, ⟨8, 0, "b", "CS", "y"⟩] [] "") :=
  (claim_C4_sort_order [⟨8, 0, "a", "CS", "x"⟩, ⟨8, 0, "b", "CS", "y"⟩] [] "").2
    ⟨8, 0, "a", "CS", "x"⟩ ⟨8, 0, "b", "CS", "y"⟩ rfl rfl rfl
    (by decide) (by decide) (List.Sublist.refl _)

/-! ## Frame behaviour of the memo (TagViewerPage.tsx, lines 86–124)

JS arrays are mutable heap objects and `Array.prototype.sort` mutates in
place; the source therefore copies (`[...currentTags]`) before sorting when
it did not filter. To verify the frame property we embed a tiny heap of
arrays: references are indices into a list of array values, `filter` and the
spread `[...xs]` allocate fresh arrays, and the in-place `sort` overwrites
the array its reference designates. -/

/-- A heap of JS arrays of tag rows, addressed by allocation order. -/
abbrev TagHeap := List (List DicomTag)

/-- Reads the array value a reference designates. -/
def heapGet (h : TagHeap) (r : Nat) : List DicomTag := h.getD r []

/-- Overwrites the array at `r` (the effect of an in-place mutation). -/
def heapSet (h : TagHeap) (r : Nat) (v : List DicomTag) : TagHeap :=
  h.set r v

/-- Heap-level embedding of the memo `filteredTags`: `currentTags` starts as
an alias of the `tags()` array; `filter` (when the filter text is nonempty)
or the spread copy `[...currentTags]` (when it is empty, source line 110)
allocates a fresh array at the end of the heap, and `.sort(...)` then mutates
that fresh array in place. Returns the final heap and the reference the memo
yields. -/
def filteredTagsProg (h : TagHeap) (tagsRef : Nat) (pins : List PinnedTag)
    (filterText : String) : TagHeap × Nat :=
  let filter := jsToLower filterText
  let current := if filter ≠ "" then (heapGet h tagsRef).filter (tagMatches filter)
    else heapGet h tagsRef
  let r := h.length
  let h1 := h ++ [current]
  let h2 := heapSet h1 r (sortTags pins (heapGet h1 r))
  (h2, r)

theorem heapGet_alloc_old (h : TagHeap) (v : List DicomTag) (r : Nat)
    (hr : r < h.length) : heapGet (h ++ [v]) r = heapGet h r := by
  simp [heapGet, List.getD_eq_getElem?_getD, List.getElem?_append_left hr]

theorem heapGet_alloc_new (h : TagHeap) (v : List DicomTag) :
    heapGet (h ++ [v]) h.length = v := by
  simp [heapGet, List.getD_eq_getElem?_getD, List.getElem?_concat_length]

theorem heapGet_set_fresh_other (h : TagHeap) (r : Nat) (hr : r < h.length)
    (cur v : List DicomTag) :
    heapGet (heapSet (h ++ [cur]) h.length v) r = heapGet h r := by
  have hne : h.length ≠ r := Nat.ne_of_gt hr
  simp only [heapGet, heapSet, List.getD_eq_getElem?_getD,
    List.getElem?_set_ne hne]
  rw [List.getElem?_append_left hr]

theorem heapGet_set_fresh_self (h : TagHeap) (cur v : List DicomTag) :
    heapGet (heapSet (h ++ [cur]) h.length v) h.length = v := by
  have hlen : h.length < (h ++ [cur]).length := by simp
  simp [heapGet, heapSet, List.getD_eq_getElem?_getD,
    List.getElem?_set_self hlen]

/-- C8: computing the derived view never mutates the input rows array — the
memo yields a fresh reference (distinct from `tagsRef`), the original array's
value is unchanged, and the fresh array holds exactly `deriveView` of the
original rows. This covers the empty-filter case, where the in-place sort
would otherwise have operated on the original array. -/
theorem claim_C8_no_mutation (h : TagHeap) (tagsRef : Nat)
    (pins : List PinnedTag) (q : String) (hr : tagsRef < h.length) :
    (filteredTagsProg h tagsRef pins q).2 ≠ tagsRef ∧
    heapGet (filteredTagsProg h tagsRef pins q).1 tagsRef = heapGet h tagsRef ∧
    heapGet (filteredTagsProg h tagsRef pins q).1
        (filteredTagsProg h tagsRef pins q).2 =
      deriveView (heapGet h tagsRef) pins q := by
  refine ⟨Nat.ne_of_gt hr, ?_, ?_⟩
  · show heapGet (heapSet (h ++ [_]) h.length _) tagsRef = heapGet h tagsRef
    exact heapGet_set_fresh_other h tagsRef hr _ _
  · show heapGet (heapSet (h ++ [_]) h.length _) h.length =
      deriveView (heapGet h tagsRef) pins q
    rw [heapGet_set_fresh_self, heapGet_alloc_new]
    rfl

theorem claim_C8_witness :
    (filteredTagsProg [[⟨8, 0, "b", "CS", "y"⟩, ⟨8, 0, "a", "CS", "x"⟩]]
        0 [] "").2 ≠ 0 ∧
    heapGet (filteredTagsProg [[⟨8, 0, "b", "CS", "y"⟩, ⟨8, 0, "a", "CS", "x"⟩]]
        0 [] "").1 0 =
      heapGet [[⟨8, 0, "b", "CS", "y"⟩, ⟨8, 0, "a", "CS", "x"⟩]] 0 ∧
    heapGet (filteredTagsProg [[⟨8, 0, "b", "CS", "y"⟩, ⟨8, 0, "a", "CS", "x"⟩]]
        0 [] "").1
        (filteredTagsProg [[⟨8, 0, "b", "CS", "y"⟩, ⟨8, 0, "a", "CS", "x"⟩]]
          0 [] "").2 =
      deriveView (heapGet [[⟨8, 0, "b", "CS", "y"⟩, ⟨8, 0, "a", "CS", "x"⟩]] 0)
        [] "" :=
  claim_C8_no_mutation [[⟨8, 0, "b", "CS", "y"⟩, ⟨8, 0, "a", "CS", "x"⟩]]
    0 [] "" (by decide)

/-! ## Stats post-processing (StatsModal.tsx, lines 86–96)

The modal body computes, per tag statistic,
`total = Object.values(value_counts).reduce((a, b) => a + b, 0)`, sorts the
entries with the comparator `([, a], [, b]) => b - a`, keeps `slice(0, 10)`,
and renders `((count / total) * 100).toFixed(1)` per entry. JS division by a
zero total yields `NaN` (for `0 / 0`) or `Infinity`, embedded here as
`Option.none`; a defined percentage is embedded as the rational value rounded
to one decimal (the binary-double artifacts of `toFixed` are abstracted by
exact rational rounding). -/

/-- The "keep `x` before `y`" relation of the comparator
`([, a], [, b]) => b - a`: entries sort by count descending. -/
def countLe (x y : String × Nat) : Bool := decide ((y.2 : Int) - (x.2 : Int) ≤ 0)

/-- Embeds `Object.values(stat.value_counts).reduce((a, b) => a + b, 0)`. -/
def statsTotal (vc : List (String × Nat)) : Nat :=
  (vc.map Prod.snd).foldl (· + ·) 0

/-- Embeds `Object.entries(stat.value_counts).sort(([, a], [, b]) => b - a)`. -/
def sortedCounts (vc : List (String × Nat)) : List (String × Nat) :=
  vc.mergeSort countLe

/-- Embeds the additional `.slice(0, 10)`. -/
def sortedTop (vc : List (String × Nat)) : List (String × Nat) :=
  (sortedCounts vc).take 10

/-- Rounding to one decimal, the value of `toFixed(1)`. -/
def roundTo1 (q : ℚ) : ℚ := (round (q * 10) : ℚ) / 10

/-- Embeds `((count / total) * 100).toFixed(1)`: `none` is the `NaN` /
`Infinity` a zero `total` produces. -/
def percentDisplay (count total : Nat) : Option ℚ :=
  if total = 0 then none else some (roundTo1 ((count : ℚ) / (total : ℚ) * 100))

/-- The rendered rows of one statistic card: value, count and displayed
percentage, in display order. -/
def statEntries (vc : List (String × Nat)) : List (String × Nat × Option ℚ) :=
  (sortedTop vc).map (fun p => (p.1, p.2, percentDisplay p.2 (statsTotal vc)))

theorem countLe_trans (x y z : String × Nat) :
    countLe x y → countLe y z → countLe x z := by
  simp only [countLe, decide_eq_true_eq]
  omega

theorem countLe_total (x y : String × Nat) : countLe x y || countLe y x := by
  simp only [countLe, Bool.or_eq_true, decide_eq_true_eq]
  omega

theorem foldl_add_eq_sum (l : List Nat) (n : Nat) :
    l.foldl (· + ·) n = n + l.sum := by
  induction l generalizing n with
  | nil => simp
  | cons a t ih => rw [List.foldl_cons, ih, List.sum_cons]; omega

theorem statsTotal_eq_sum (vc : List (String × Nat)) :
    statsTotal vc = (vc.map Prod.snd).sum := by
  simp [statsTotal, foldl_add_eq_sum]

/-- C2 counterexample: for the zero-sum histogram `{"A": 0}` the code
displays `NaN` (embedded `none`) as the percentage — the division is not
guarded and `0%` is not reported. -/
theorem claim_C2_counterexample :
    statEntries [("A", 0)] = [("A", 0, none)] ∧
    (none : Option ℚ) ≠ some 0 := by
  constructor
  · simp [statEntries, sortedTop, sortedCounts, List.mergeSort, statsTotal,
      percentDisplay]
  · decide

/-- C2 (amended): entries are ordered by count descending and only the top 10
are kept (every kept count dominates every dropped count); when the counts
sum to a nonzero total each displayed percentage is `count / total * 100`
rounded to one decimal; `{"A": 3, "B": 1}` yields `A` before `B` with `75.0`
and `25.0`; and for a zero-sum histogram every displayed percentage is the
unguarded `NaN` (embedded `none`) — the computation still completes, but it
does not report `0%`. -/
theorem claim_C2_stats (vc : List (String × Nat)) :
    (statEntries vc).Pairwise (fun x y => y.2.1 ≤ x.2.1) ∧
    (statEntries vc).length = min vc.length 10 ∧
    (∀ p ∈ statEntries vc, (p.1, p.2.1) ∈ vc) ∧
    (∀ x ∈ statEntries vc, ∀ y ∈ (sortedCounts vc).drop 10, y.2 ≤ x.2.1) ∧
    (∀ p ∈ statEntries vc, (vc.map Prod.snd).sum ≠ 0 →
      p.2.2 = some ((round ((p.2.1 : ℚ) / ((vc.map Prod.snd).sum : ℚ) * 100 * 10) : ℚ) / 10)) ∧
    ((vc.map Prod.snd).sum = 0 → ∀ p ∈ statEntries vc, p.2.2 = none) ∧
    statEntries [("A", 3), ("B", 1)] = [("A", 3, some 75), ("B", 1, some 25)] := by
  have hsorted : (sortedCounts vc).Pairwise (fun x y => y.2 ≤ x.2) := by
    have hs := List.sorted_mergeSort countLe_trans countLe_total vc
    exact hs.imp (fun h => by simpa [countLe] using h)
  refine ⟨?_, ?_, ?_, ?_, ?_, ?_, ?_⟩
  · unfold statEntries
    rw [List.pairwise_map]
    exact (hsorted.sublist (List.take_sublist 10 _))
  · simp [statEntries, sortedTop, sortedCounts, Nat.min_comm]
  · intro p hp
    rcases List.mem_map.mp hp with ⟨q, hq, hqe⟩
    have hq2 : q ∈ vc := List.mem_mergeSort.mp (List.mem_of_mem_take hq)
    rw [← hqe]
    simpa using hq2
  · intro x hx y hy
    rcases List.mem_map.mp hx with ⟨q, hq, hqe⟩
    have hsplit := hsorted
    rw [← List.take_append_drop 10 (sortedCounts vc)] at hsplit
    have hrel := (List.pairwise_append.mp hsplit).2.2
    have := hrel q hq y hy
    rw [← hqe]
    simpa using this
  · intro p hp hne
    rcases List.mem_map.mp hp with ⟨q, hq, hqe⟩
    rw [← hqe]
    simp only
    rw [percentDisplay, statsTotal_eq_sum]
    rw [if_neg hne]
    simp [roundTo1, mul_assoc]
  · intro hzero p hp
    rcases List.mem_map.mp hp with ⟨q, hq, hqe⟩
    rw [← hqe]
    simp only
    rw [percentDisplay, statsTotal_eq_sum, if_pos hzero]
  · simp [statEntries, sortedTop, sortedCounts, List.mergeSort, countLe,
      statsTotal, percentDisplay, roundTo1]
    norm_num [round_eq]

theorem claim_C2_witness :
    (("A", 3, some (75 : ℚ)).2.2 =
      some (((round ((("A", 3, some (75 : ℚ)).2.1 : ℚ) /
        ((([("A", 3), ("B", 1)] : List (String × Nat)).map Prod.snd).sum : ℚ) *
          100 * 10) : ℚ)) / 10)) ∧
    (("A", 0, (none : Option ℚ)).2.2 = none) := by
  constructor
  · exact (claim_C2_stats [("A", 3), ("B", 1)]).2.2.2.2.1 ("A", 3, some 75)
      (by rw [(claim_C2_stats []).2.2.2.2.2.2]; decide) (by decide)
  · exact (claim_C2_stats [("A", 0)]).2.2.2.2.2.1 (by decide) ("A", 0, none)
      (by rw [claim_C2_counterexample.1]; decide)

/-! ## Tag-identifier parser and pipeline orchestration (pages/App.tsx,
`handleProcess`, lines 332–444)

The orchestrator issues `invoke("process_dicom", ...)` remote calls. The
backend is abstracted as a response function from requests to reports; the
trace records the requests issued, in order, together with the final report
state. JS string operations on the tiny tag-configuration strings are
embedded on character lists (`split` on a one-character separator, `trim`,
and `parseInt(s, 16)`), which keeps every definition kernel-executable. -/

/-- Embeds `s.split(sep)` for a one-character separator: JS yields the
fragments between occurrences, with `""` fragments for adjacent or leading
or trailing separators, and `[""]` for the empty string. -/
def splitOnChar (sep : Char) : List Char → List (List Char)
  | [] => [[]]
  | c :: rest =>
    if c = sep then [] :: splitOnChar sep rest
    else
      match splitOnChar sep rest with
      | [] => [[c]]
      | g :: gs => (c :: g) :: gs

/-- Embeds `s.trim()`. -/
def trimChars (cs : List Char) : List Char :=
  ((cs.dropWhile Char.isWhitespace).reverse.dropWhile Char.isWhitespace).reverse

/-- The numeric value of one hexadecimal digit, else `none`. -/
def hexDigitVal (c : Char) : Option Nat :=
  if '0' ≤ c ∧ c ≤ '9' then some (c.toNat - '0'.toNat)
  else if 'a' ≤ c ∧ c ≤ 'f' then some (c.toNat - 'a'.toNat + 10)
  else if 'A' ≤ c ∧ c ≤ 'F' then some (c.toNat - 'A'.toNat + 10)
  else none

/-- The longest prefix of hexadecimal digit values (`parseInt` stops at the
first invalid character). -/
def hexDigitsPre : List Char → List Nat
  | [] => []
  | c :: rest =>
    match hexDigitVal c with
    | some d => d :: hexDigitsPre rest
    | none => []

/-- The magnitude part of `parseInt(s, 16)`: an optional `0x`/`0X` prefix is
stripped, then the digit prefix is valued; no digits means `NaN` (`none`). -/
def parseIntHexMag (cs : List Char) : Option Nat :=
  let cs2 :=
    match cs with
    | '0' :: 'x' :: r => r
    | '0' :: 'X' :: r => r
    | _ => cs
  let ds := hexDigitsPre cs2
  if ds.isEmpty then none
  else some (ds.foldl (fun a d => a * 16 + d) 0)

/-- Embeds the JS builtin `parseInt(s, 16)`: leading whitespace and an
optional sign are consumed, then the hexadecimal magnitude; `none` is `NaN`
(the source's `isNaN` check). -/
def jsParseIntHex (s : List Char) : Option Int :=
  let cs := s.dropWhile Char.isWhitespace
  match cs with
  | '-' :: rest => (parseIntHexMag rest).map (fun v => -(v : Int))
  | '+' :: rest => (parseIntHexMag rest).map (fun v => (v : Int))
  | _ => (parseIntHexMag cs).map (fun v => (v : Int))

/-- Embeds the parsing loop of `handleProcess` (source lines 354–362): each
`;`-fragment is trimmed and split on `,`; a fragment that does not split into
exactly two parts throws `Invalid tag format`, a part that parses to `NaN`
throws `Invalid hex values`, and the first throw aborts the whole parse. -/
def parseTagEntries : List (List Char) → Except String (List (Int × Int))
  | [] => .ok []
  | raw :: rest =>
    match splitOnChar ',' (trimChars raw) with
    | [p1, p2] =>
      match jsParseIntHex p1, jsParseIntHex p2 with
      | some g, some e =>
        match parseTagEntries rest with
        | .ok l => .ok ((g, e) :: l)
        | .error msg => .error msg
      | _, _ => .error ("Invalid hex values: " ++ String.mk raw)
    | _ => .error ("Invalid tag format: " ++ String.mk raw)

/-- The tag-identifier parser of `handleProcess` applied to a tags input
string. -/
def parseTags (tagsInput : String) : Except String (List (Int × Int)) :=
  parseTagEntries (splitOnChar ';' tagsInput.toList)

/-- The hidden tags configuration of HomePage (source line 264). -/
def defaultTagsInput : String := "0010,0010; 0010,0020; 0010,0030; 0008,0080; 0008,0090"

/-- Embeds the `anonymize` branch of the `process_dicom` request. -/
structure AnonymizeSpec where
  input : String
  output : String
  tags : List (Int × Int)
  replacement : String
  deriving DecidableEq, Repr

/-- Embeds the `convert` branch of the `process_dicom` request. -/
structure ConvertSpec where
  input : String
  output : String
  skip_excel : Bool
  flatten_output : Bool
  deriving DecidableEq, Repr

/-- Embeds the `process_dicom` request object (`processInput`). -/
structure ProcessInput where
  convert : Option ConvertSpec
  anonymize : Option AnonymizeSpec
  deriving DecidableEq, Repr

/-- Embeds `interface ConversionReport`. -/
structure ConversionReport where
  total : Nat
  successful : Nat
  failed : Nat
  skipped_non_image : Nat
  failed_files : List String
  skipped_files : List String
  output_folder : String
  deriving DecidableEq, Repr

/-- Embeds `interface AnonymizationReport`. -/
structure AnonymizationReport where
  total : Nat
  successful : Nat
  failed : Nat
  skipped : Nat
  failed_files : List String
  skipped_files : List String
  output_folder : String
  deriving DecidableEq, Repr

/-- Embeds `interface ProcessReport`. -/
structure ProcessReport where
  conversion : Option ConversionReport
  anonymization : Option AnonymizationReport
  deriving DecidableEq, Repr

/-- The observable outcome of one `handleProcess` run: the `process_dicom`
requests issued in order, the final report signals, and the validation error
surfaced by `alert` when parsing or input checking fails before any remote
call. -/
structure RunTrace where
  calls : List ProcessInput
  anonymizationReport : Option AnonymizationReport
  conversionReport : Option ConversionReport
  validationError : Option String
  deriving DecidableEq, Repr

/-- Embeds `handleProcess` of pages/App.tsx. `doAnonymize`/`doConvert` are
the export-format flags, `backend` abstracts the `process_dicom` endpoint as
a deterministic response function, and the hard-coded configuration
(`replacementValue = "ANONYMIZED"`, `skipExcel = false`) is inlined. The
tags configuration string is a parameter so the parser's failure behaviour
is visible; the page passes `defaultTagsInput`. -/
def handleProcess (doAnonymize doConvert : Bool) (inputPath outputPath : String)
    (tagsInput : String) (backend : ProcessInput → ProcessReport) : RunTrace :=
  if inputPath = "" ∨ outputPath = "" then
    { calls := [], anonymizationReport := none, conversionReport := none,
      validationError := some "Please select both Input and Output folders." }
  else if !doAnonymize && !doConvert then
    { calls := [], anonymizationReport := none, conversionReport := none,
      validationError := some "Please select at least one export format." }
  else
    match (if doAnonymize then parseTags tagsInput else .ok []) with
    | .error e =>
      { calls := [], anonymizationReport := none, conversionReport := none,
        validationError := some ("Error parsing tags: " ++ e) }
    | .ok tags =>
      let processInput : ProcessInput :=
        { anonymize :=
            if doAnonymize then
              some { input := inputPath, output := outputPath, tags := tags,
                     replacement := "ANONYMIZED" }
            else none,
          convert :=
            if doConvert && !doAnonymize then
              some { input := inputPath, output := outputPath,
                     skip_excel := false, flatten_output := false }
            else none }
      let report := backend processInput
      match report.anonymization with
      | some anon =>
        if doConvert then
          let convInput : ProcessInput :=
            { convert :=
                some { input := anon.output_folder ++ "/dicom_file",
                       output := anon.output_folder,
                       skip_excel := false, flatten_output := true },
              anonymize := none }
          let report2 := backend convInput
          { calls := [processInput, convInput],
            anonymizationReport := some anon,
            conversionReport :=
              match report.conversion with
              | some c => some c
              | none => report2.conversion,
            validationError := none }
        else
          { calls := [processInput],
            anonymizationReport := some anon,
            conversionReport := report.conversion,
            validationError := none }
      | none =>
        { calls := [processInput],
          anonymizationReport := none,
          conversionReport := report.conversion,
          validationError := none }

/-- The first request a run with anonymization enabled issues. -/
def anonRequest (inputPath outputPath : String) (tags : List (Int × Int)) :
    ProcessInput :=
  { anonymize :=
      some { input := inputPath, output := outputPath, tags := tags,
             replacement := "ANONYMIZED" },
    convert := none }

/-- The conversion request derived from an anonymization report. -/
def convRequestOf (anon : AnonymizationReport) : ProcessInput :=
  { convert :=
      some { input := anon.output_folder ++ "/dicom_file",
             output := anon.output_folder,
             skip_excel := false, flatten_output := true },
    anonymize := none }

/-- The parse of the page's hard-coded tags configuration. -/
def defaultTags : List (Int × Int) :=
  [(0x0010, 0x0010), (0x0010, 0x0020), (0x0010, 0x0030),
   (0x0008, 0x0080), (0x0008, 0x0090)]

theorem parseTags_default : parseTags defaultTagsInput = .ok defaultTags := by
  rfl

/-- C1: with both stages requested, the anonymization request is issued
first, and the conversion request issued next carries input folder
`output_folder ++ "/dicom_file"`, output folder `output_folder` from the
anonymization report, and `flatten_output` forced `true` (the caller-level
flatten preference, `false` in the convert-only branch, is ignored). -/
theorem claim_C1_pipeline_sequencing (inP outP : String)
    (backend : ProcessInput → ProcessReport) (anon : AnonymizationReport)
    (hin : inP ≠ "") (hout : outP ≠ "")
    (hresp : (backend (anonRequest inP outP defaultTags)).anonymization = some anon) :
    (handleProcess true true inP outP defaultTagsInput backend).calls =
      [anonRequest inP outP defaultTags,
       { convert :=
           some { input := anon.output_folder ++ "/dicom_file",
                  output := anon.output_folder,
                  skip_excel := false, flatten_output := true },
         anonymize := none }] := by
  have h1 : ¬(inP = "" ∨ outP = "") := by tauto
  simp only [handleProcess, if_neg h1, Bool.not_true, Bool.and_self,
    Bool.false_eq_true, if_false, ite_true, ite_false, parseTags_default,
    Bool.and_false]
  simp only [anonRequest] at hresp
  rw [hresp]
  rfl

theorem claim_C1_witness :
    (handleProcess true true "/in" "/out" defaultTagsInput
        (fun _ =>
          { conversion := none,
            anonymization :=
              some { total := 5, successful := 3, failed := 2, skipped := 0,
                     failed_files := [], skipped_files := [],
                     output_folder := "/out/anonymized" } })).calls =
      [anonRequest "/in" "/out" defaultTags,
       { convert :=
           some { input := "/out/anonymized" ++ "/dicom_file",
                  output := "/out/anonymized",
                  skip_excel := false, flatten_output := true },
         anonymize := none }] :=
  claim_C1_pipeline_sequencing "/in" "/out" _
    { total := 5, successful := 3, failed := 2, skipped := 0,
      failed_files := [], skipped_files := [], output_folder := "/out/anonymized" }
    (by decide) (by decide) rfl

/-- C5: a complete anonymization failure (`failed = total`) does not
short-circuit the pipeline — the conversion request is still issued, against
whatever output folder the anonymization report carries. -/
theorem claim_C5_no_short_circuit (inP outP : String)
    (backend : ProcessInput → ProcessReport) (anon : AnonymizationReport)
    (hin : inP ≠ "") (hout : outP ≠ "")
    (hresp : (backend (anonRequest inP outP defaultTags)).anonymization = some anon)
    (hfail : anon.failed = anon.total) :
    (handleProcess true true inP outP defaultTagsInput backend).calls =
      [anonRequest inP outP defaultTags, convRequestOf anon] ∧
    convRequestOf anon ∈ (handleProcess true true inP outP defaultTagsInput backend).calls := by
  have h1 : ¬(inP = "" ∨ outP = "") := by tauto
  have hcalls : (handleProcess true true inP outP defaultTagsInput backend).calls =
      [anonRequest inP outP defaultTags, convRequestOf anon] := by
    simp only [handleProcess, if_neg h1, Bool.not_true, Bool.and_self,
      Bool.false_eq_true, if_false, ite_true, ite_false, parseTags_default,
      Bool.and_false]
    simp only [anonRequest] at hresp
    rw [hresp]
    rfl
  exact ⟨hcalls, by rw [hcalls]; simp⟩

theorem claim_C5_witness :
    (handleProcess true true "/in" "/out" defaultTagsInput
        (fun _ =>
          { conversion := none,
            anonymization :=
              some { total := 4, successful := 0, failed := 4, skipped := 0,
                     failed_files := ["a.dcm", "b.dcm", "c.dcm", "d.dcm"],
                     skipped_files := [],
                     output_folder := "/out/anonymized" } })).calls =
      [anonRequest "/in" "/out" defaultTags,
       convRequestOf
         { total := 4, successful := 0, failed := 4, skipped := 0,
           failed_files := ["a.dcm", "b.dcm", "c.dcm", "d.dcm"],
           skipped_files := [], output_folder := "/out/anonymized" }] :=
  (claim_C5_no_short_circuit "/in" "/out" _
    { total := 4, successful := 0, failed := 4, skipped := 0,
      failed_files := ["a.dcm", "b.dcm", "c.dcm", "d.dcm"],
      skipped_files := [], output_folder := "/out/anonymized" }
    (by decide) (by decide) rfl rfl).1

/-- C7: the tag parser maps `"0010,0010; 0010,0020"` to exactly the pairs
`(0x0010, 0x0010), (0x0010, 0x0020)`; a wrong-arity entry such as `"0010"`
and a non-hex entry such as `"zz,10"` fail with a validation error; and a
parse failure aborts the run before any remote call, leaving every report
signal unset. -/
theorem claim_C7_tag_parsing (s : String) (msg : String)
    (doConvert : Bool) (inP outP : String)
    (backend : ProcessInput → ProcessReport)
    (hin : inP ≠ "") (hout : outP ≠ "")
    (herr : parseTags s = .error msg) :
    parseTags "0010,0010; 0010,0020" = .ok [(0x0010, 0x0010), (0x0010, 0x0020)] ∧
    parseTags "0010" = .error "Invalid tag format: 0010" ∧
    parseTags "zz,10" = .error "Invalid hex values: zz,10" ∧
    ((handleProcess true doConvert inP outP s backend).calls = [] ∧
     (handleProcess true doConvert inP outP s backend).anonymizationReport = none ∧
     (handleProcess true doConvert inP outP s backend).conversionReport = none ∧
     (handleProcess true doConvert inP outP s backend).validationError =
       some ("Error parsing tags: " ++ msg)) := by
  refine ⟨rfl, rfl, rfl, ?_⟩
  have h1 : ¬(inP = "" ∨ outP = "") := by tauto
  simp only [handleProcess, if_neg h1, Bool.not_true, Bool.and_self,
    Bool.false_eq_true, if_false, ite_true, herr]
  exact ⟨rfl, rfl, rfl, rfl⟩

theorem claim_C7_witness :
    parseTags "0010,0010; 0010,0020" = .ok [(0x0010, 0x0010), (0x0010, 0x0020)] ∧
    (handleProcess true false "/in" "/out" "0010"
        (fun _ => { conversion := none, anonymization := none })).calls = [] ∧
    (handleProcess true false "/in" "/out" "0010"
        (fun _ => { conversion := none, anonymization := none })).validationError =
      some ("Error parsing tags: " ++ "Invalid tag format: 0010") := by
  have h := claim_C7_tag_parsing "0010" "Invalid tag format: 0010" false "/in" "/out"
    (fun _ => { conversion := none, anonymization := none })
    (by decide) (by decide) rfl
  exact ⟨h.1, h.2.2.2.1, h.2.2.2.2.2.2⟩

/-! ## Windowed renderer (TagViewerPage.tsx, `rowVirtualizer`, lines 126–133)

The repository configures `createVirtualizer` with `count =
filteredTags().length`, `estimateSize: () => 40` and `overscan: 5`; the
range computation itself lives in the external `@tanstack/solid-virtual`
package, outside this repository's sources, so it is modelled from the
spec. -/

/-- Modelled from the spec: row `i` of the uniform 40-pixel layout occupies
extent `[40 * i, 40 * i + 40)`, and it is visible when that extent overlaps
the viewport `[offset, offset + viewport)`. The windowing algorithm of the
external `@tanstack/solid-virtual` package is not part of the repository
sources. -/
def rowOverlaps (i offset viewport : Nat) : Prop :=
  40 * i < offset + viewport ∧ offset < 40 * i + 40

/-- Modelled from the spec: the materialized index range — the first and last
visible row index, each expanded by the configured overscan of 5 rows and
clamped to the valid indices `[0, N - 1]`. -/
def windowRange (N offset viewport : Nat) : Nat × Nat :=
  (offset / 40 - 5, min (N - 1) ((offset + viewport - 1) / 40 + 5))

/-- Modelled from the spec: the total scrollable extent with the uniform
40-pixel row estimate (`getTotalSize`). -/
def totalExtent (N : Nat) : Nat := 40 * N

/-- C9: for a positive viewport positioned inside the content, the
materialized range contains exactly the indices within the 5-row overscan of
some viewport-overlapping row — every overlapping index is included, indices
entirely outside the padded range are excluded — and the total scrollable
extent is `40 * N`. -/
theorem claim_C9_window_range (N offset viewport : Nat) (hv : 0 < viewport)
    (hbound : offset + viewport ≤ 40 * N) (i : Nat) (hi : i < N) :
    (((windowRange N offset viewport).1 ≤ i ∧
        i ≤ (windowRange N offset viewport).2) ↔
      (∃ j, j < N ∧ rowOverlaps j offset viewport ∧ i ≤ j + 5 ∧ j ≤ i + 5)) ∧
    totalExtent N = 40 * N := by
  refine ⟨?_, rfl⟩
  simp only [windowRange, rowOverlaps]
  constructor
  · rintro ⟨h1, h2⟩
    refine ⟨max (offset / 40) (min i ((offset + viewport - 1) / 40)),
      ?_, ⟨?_, ?_⟩, ?_, ?_⟩ <;> omega
  · rintro ⟨j, hj, ⟨hov1, hov2⟩, h5a, h5b⟩
    omega

theorem claim_C9_witness :
    (((windowRange 20 80 200).1 ≤ 0 ∧ 0 ≤ (windowRange 20 80 200).2) ↔
      (∃ j, j < 20 ∧ rowOverlaps j 80 200 ∧ 0 ≤ j + 5 ∧ j ≤ 0 + 5)) ∧
    totalExtent 20 = 40 * 20 :=
  claim_C9_window_range 20 80 200 (by decide) (by decide) 0 (by decide)
